import Mathlib

/-!
# Verification of the index construction / rebalancing / summary core (src/core.py)

Shallow embedding of the three functions of `src/core.py`
(`index_construct`, `rebalancing`, `portfolio_summary`) and proofs of the
specification's claims about them.

Modelling conventions:
* A pandas `DataFrame` handed to `index_construct` is modelled as a list of
  `MarketRow` records together with the list of column names (the column list
  is consulted only by the missing-column validation, exactly as in the code).
* Numeric columns (`market_cap_m`, `price`, and all derived columns) are
  modelled as rational numbers `ℚ`.  The code uses IEEE floats; every claim
  treated here is about the algebra of the computation (sums, products,
  quotients, comparisons), not about rounding of floats.  Note that `ℚ`
  totalises division with `x / 0 = 0` where float division yields `±inf`/`NaN`;
  no claim below depends on the value of a quotient with zero divisor, only on
  whether an error is raised.
* Python exceptions (`ValueError` raised by the validation block, pandas
  lookup/assignment errors in `rebalancing`) are modelled with `Except Err`.
* `pd.to_datetime(col).dt.strftime("%Y-%m-%d")` (core.py line 54) normalises a
  date-time string to day granularity; on ISO-formatted inputs this is
  truncation to the first 10 characters, which is how `normDate` models it.
  Crucially, line 54 *assigns the normalised column back into the caller's
  DataFrame*; the model therefore returns the post-call DataFrame alongside
  the result, so mutation of the argument is observable.
* `subset.sort_values(by="market_cap_m", ascending=False)` (core.py line 63)
  goes through pandas `nargsort`, which reverses the values, runs an ascending
  `argsort`, and reverses the resulting indexer again.  `sort_values_desc`
  mirrors that composition with a stable ascending insertion sort in the
  middle (numpy's introsort degenerates to a stable insertion sort on the
  small partitions relevant to the concrete inputs used here; for large
  inputs the default `kind="quicksort"` is not stable, see the discussion of
  the sorting claim in the results).
* `round(x, n)` and the percent formatting of `portfolio_summary`
  (core.py lines 254-261) are presentation-layer; the summary model carries
  the unrounded numeric values, which is what the summary claims quantify
  over.
-/

namespace Core

instance {ε α : Type} [DecidableEq ε] [DecidableEq α] : DecidableEq (Except ε α) := fun a b =>
  match a, b with
  | .ok x, .ok y =>
      if h : x = y then .isTrue (by rw [h])
      else .isFalse (by intro hc; injection hc; exact h ‹x = y›)
  | .error x, .error y =>
      if h : x = y then .isTrue (by rw [h])
      else .isFalse (by intro hc; injection hc; exact h ‹x = y›)
  | .ok _, .error _ => .isFalse (by intro hc; cases hc)
  | .error _, .ok _ => .isFalse (by intro hc; cases hc)

/-- A row of the input table: columns `date`, `company`, `market_cap_m`,
`price` (core.py line 43). -/
structure MarketRow where
  date : String
  company : String
  market_cap_m : ℚ
  price : ℚ
deriving DecidableEq, Repr

/-- The caller's DataFrame: its column names (used by the missing-column
validation) and its rows. -/
structure DataFrame where
  columns : List String
  rows : List MarketRow
deriving DecidableEq, Repr

/-- `required_cols` of core.py line 43. -/
def requiredCols : List String := ["date", "company", "market_cap_m", "price"]

/-- `required_cols - set(df.columns)` of core.py line 44. -/
def missingCols (df : DataFrame) : List String :=
  requiredCols.filter (fun c => !df.columns.contains c)

/-- Day-granularity normalisation
`pd.to_datetime(s).strftime("%Y-%m-%d")` of core.py line 54, modelled for
ISO-formatted date strings as truncation to the 10-character date part. -/
def normDate (s : String) : String := s.take 10

/-- Errors: the `ValueError`s of the validation block (core.py lines 43-56)
and the pandas lookup/length-mismatch failures of the vectorised
`shares_old` assignment in `rebalancing` (core.py lines 137-138). -/
inductive Err where
  | missingColumns
  | badCutoff
  | badCapital
  | dateNotFound
  | lookupFailed
deriving DecidableEq, Repr

/-- A row of `universe_in`: the original columns plus `weight`, `cumulative`
(core.py lines 69-70) and `allocation`, `shares` (lines 78-79). -/
structure InRow where
  date : String
  company : String
  market_cap_m : ℚ
  price : ℚ
  weight : ℚ
  cumulative : ℚ
  allocation : ℚ
  shares : ℚ
deriving DecidableEq, Repr

/-- A row of `universe_out`: the original columns plus `weight` and
`cumulative` only (no allocation/shares are ever computed for excluded
rows, core.py lines 75 vs 78-79). -/
structure OutRow where
  date : String
  company : String
  market_cap_m : ℚ
  price : ℚ
  weight : ℚ
  cumulative : ℚ
deriving DecidableEq, Repr

/-- The triple returned by `index_construct` (core.py line 81). -/
structure IndexResult where
  total_mc : ℚ
  universe_in : List InRow
  universe_out : List OutRow
deriving DecidableEq, Repr

/-- Stable insertion into an ascending-by-market-cap list (an element is
placed before the first element that is `≥` it, so equal keys keep their
relative order). -/
def insertAscMC (r : MarketRow) : List MarketRow → List MarketRow
  | [] => [r]
  | x :: xs =>
      if r.market_cap_m ≤ x.market_cap_m then r :: x :: xs
      else x :: insertAscMC r xs

/-- Stable ascending insertion sort by `market_cap_m`. -/
def sortAscMC : List MarketRow → List MarketRow
  | [] => []
  | x :: xs => insertAscMC x (sortAscMC xs)

/-- `subset.sort_values(by="market_cap_m", ascending=False)` (core.py
line 63): pandas `nargsort` reverses the column, runs an ascending
`argsort`, and reverses the indexer again. -/
def sort_values_desc (rows : List MarketRow) : List MarketRow :=
  (sortAscMC rows.reverse).reverse

/-- `subset["weight"]`, `subset["cumulative"]` (core.py lines 69-70): each
row is given `weight = market_cap_m / total` and `cumulative` the running
sum of weights starting from `acc`. -/
def withWeightCum (total : ℚ) : ℚ → List MarketRow → List OutRow
  | _, [] => []
  | acc, r :: rs =>
      ⟨r.date, r.company, r.market_cap_m, r.price, r.market_cap_m / total,
        acc + r.market_cap_m / total⟩ ::
        withWeightCum total (acc + r.market_cap_m / total) rs

/-- Enrichment of an included row with `allocation = capital * weight` and
`shares = allocation / price` (core.py lines 78-79). -/
def mkIn (capital : ℚ) (r : OutRow) : InRow :=
  ⟨r.date, r.company, r.market_cap_m, r.price, r.weight, r.cumulative,
    capital * r.weight, capital * r.weight / r.price⟩

/-- `df` after core.py line 54: every row's `date` replaced by its
day-normalised form, in place, visible to the caller. -/
def normDF (df : DataFrame) : DataFrame :=
  ⟨df.columns, df.rows.map (fun r => { r with date := normDate r.date })⟩

/-- `total_mc = subset["market_cap_m"].sum()` (core.py line 66). -/
def totalMC (sorted : List MarketRow) : ℚ := (sorted.map (·.market_cap_m)).sum

/-- The sorted subset with its `weight` and `cumulative` columns
(core.py lines 69-70). -/
def wrowsOf (sorted : List MarketRow) : List OutRow :=
  withWeightCum (totalMC sorted) 0 sorted

/-- Core of `index_construct` after validation (core.py lines 60-81),
applied to the already filtered and sorted subset: `universe_in` is the
`cumulative <= cutoff` slice enriched with allocation and shares (lines
73, 78-79), `universe_out` the `cumulative > cutoff` slice (line 75). -/
def buildResult (sorted : List MarketRow) (cutoff capital : ℚ) : IndexResult :=
  ⟨totalMC sorted,
   ((wrowsOf sorted).filter (fun r => decide (r.cumulative ≤ cutoff))).map (mkIn capital),
   (wrowsOf sorted).filter (fun r => decide (cutoff < r.cumulative))⟩

/-- `index_construct(df, date, cutoff, capital)` (core.py lines 4-81).  The
first component of the pair is the caller's DataFrame after the call (the
date column is normalised in place at line 54, after the first three
validations and before the date-presence check). -/
def index_construct (df : DataFrame) (date : String) (cutoff capital : ℚ) :
    DataFrame × Except Err IndexResult :=
  if missingCols df ≠ [] then (df, .error .missingColumns)
  else if cutoff ≤ 0 ∨ 1 < cutoff then (df, .error .badCutoff)
  else if capital ≤ 0 then (df, .error .badCapital)
  else
    let df' := normDF df
    if date ∉ df'.rows.map (·.date) then (df', .error .dateNotFound)
    else
      let subset := df'.rows.filter (fun r => r.date == date)
      (df', .ok (buildResult (sort_values_desc subset) cutoff capital))

example :
    index_construct ⟨requiredCols, [⟨"2025-01-01", "A", 60, 2⟩, ⟨"2025-01-01", "B", 40, 4⟩]⟩
      "2025-01-01" (17/20) 100 =
    (⟨requiredCols, [⟨"2025-01-01", "A", 60, 2⟩, ⟨"2025-01-01", "B", 40, 4⟩]⟩,
     .ok ⟨100, [⟨"2025-01-01", "A", 60, 2, 3/5, 3/5, 60, 30⟩],
               [⟨"2025-01-01", "B", 40, 4, 2/5, 1⟩]⟩) := by
  with_unfolding_all decide

/-- `ACTION` strings of core.py lines 141/153/162/173. -/
inductive Action where
  | ADJUST | SELL | BUY | IGNORE
deriving DecidableEq, Repr

/-- A row of the `combined` table of `rebalancing` (core.py lines 177-181). -/
structure TradeRecord where
  company : String
  shares_old : ℚ
  allocation_old : ℚ
  shares : ℚ
  allocation : ℚ
  price : ℚ
  trade_shares : ℚ
  trade_value : ℚ
  action : Action
deriving DecidableEq, Repr

/-- `set(universe_in_x["company"])` (core.py lines 119/121). -/
def companiesIn (l : List InRow) : Finset String := (l.map (·.company)).toFinset

/-- `set(universe_out_x["company"])` (core.py lines 120/122). -/
def companiesOut (l : List OutRow) : Finset String := (l.map (·.company)).toFinset

/-- `hold_set = old_in_set & new_in_set` (core.py line 125). -/
def hold_set (uin_old uin_new : List InRow) : Finset String :=
  companiesIn uin_old ∩ companiesIn uin_new

/-- `sell_set = old_in_set & new_out_set` (core.py line 126). -/
def sell_set (uin_old : List InRow) (uout_new : List OutRow) : Finset String :=
  companiesIn uin_old ∩ companiesOut uout_new

/-- `buy_set = old_out_set & new_in_set` (core.py line 127). -/
def buy_set (uout_old : List OutRow) (uin_new : List InRow) : Finset String :=
  companiesOut uout_old ∩ companiesIn uin_new

/-- `ignore_set = old_out_set & new_out_set` (core.py line 128). -/
def ignore_set (uout_old uout_new : List OutRow) : Finset String :=
  companiesOut uout_old ∩ companiesOut uout_new

/-- The old-date record lookup
`universe_in_old.set_index("company").loc[c, "shares"/"allocation"]`
(core.py lines 137-138): a missing label raises a `KeyError`, a duplicated
label makes `.loc` return several rows so the subsequent `.values`
assignment fails with a length mismatch; either way an exception. -/
def lookupOldIn (uin_old : List InRow) (c : String) : Except Err InRow :=
  match uin_old.filter (fun r => r.company == c) with
  | [r] => .ok r
  | _ => .error .lookupFailed

/-- An ADJUST row (core.py lines 136-141): base row = new-date included
record, `shares_old`/`allocation_old` from the old-date record. -/
def mkAdjust (r old : InRow) : TradeRecord :=
  ⟨r.company, old.shares, old.allocation, r.shares, r.allocation, r.price,
    r.shares - old.shares, (r.shares - old.shares) * r.price, .ADJUST⟩

/-- A SELL row (core.py lines 146-153): base row = old-date included record,
`shares`/`allocation` forced to 0, old-date price. -/
def mkSell (r : InRow) : TradeRecord :=
  ⟨r.company, r.shares, r.allocation, 0, 0, r.price,
    -r.shares, -r.shares * r.price, .SELL⟩

/-- A BUY row (core.py lines 157-162): base row = new-date included record,
`shares_old`/`allocation_old` forced to 0. -/
def mkBuy (r : InRow) : TradeRecord :=
  ⟨r.company, 0, 0, r.shares, r.allocation, r.price,
    r.shares, r.shares * r.price, .BUY⟩

/-- An IGNORE row (core.py lines 166-173): base row = new-date excluded
record, every numeric field forced to 0 except `price`. -/
def mkIgnore (r : OutRow) : TradeRecord :=
  ⟨r.company, 0, 0, 0, 0, r.price, 0, 0, .IGNORE⟩

/-- Effectful map over a list in the `Except` monad; used for the ADJUST
block whose per-company old-date lookup can fail. -/
def mapME (f : α → Except Err β) : List α → Except Err (List β)
  | [] => .ok []
  | x :: xs =>
      match f x with
      | .error e => .error e
      | .ok y =>
          match mapME f xs with
          | .error e => .error e
          | .ok ys => .ok (y :: ys)

/-- The four per-action blocks and their concatenation
(core.py lines 118-183), given the two snapshots. -/
def buildTrades (old new : IndexResult) : Except Err (List TradeRecord) :=
  match mapME (fun r => (lookupOldIn old.universe_in r.company).map (mkAdjust r))
      (new.universe_in.filter
        (fun r => decide (r.company ∈ hold_set old.universe_in new.universe_in))) with
  | .error e => .error e
  | .ok hold_df =>
      .ok (hold_df ++
        (old.universe_in.filter
          (fun r => decide (r.company ∈ sell_set old.universe_in new.universe_out))).map mkSell ++
        (new.universe_in.filter
          (fun r => decide (r.company ∈ buy_set old.universe_out new.universe_in))).map mkBuy ++
        (new.universe_out.filter
          (fun r => decide (r.company ∈ ignore_set old.universe_out new.universe_out))).map mkIgnore)

/-- `rebalancing(df, old_date, new_date, index_construct, **kwargs)`
(core.py lines 84-183).  The first component is the caller's DataFrame
after the call: the first `index_construct` call normalises the date
column in place and the second call operates on (and re-normalises)
that mutated DataFrame. -/
def rebalancing (df : DataFrame) (old_date new_date : String) (cutoff capital : ℚ) :
    DataFrame × Except Err (List TradeRecord) :=
  match index_construct df old_date cutoff capital with
  | (df1, .error e) => (df1, .error e)
  | (df1, .ok old) =>
    match index_construct df1 new_date cutoff capital with
    | (df2, .error e) => (df2, .error e)
    | (df2, .ok new) => (df2, buildTrades old new)

/-- `combined[combined["action"] != "IGNORE"]` (core.py line 222). -/
def nonIgnored (combined : List TradeRecord) : List TradeRecord :=
  combined.filter (fun t => decide (t.action ≠ .IGNORE))

/-- `old_value` (core.py line 225). -/
def oldValue (combined : List TradeRecord) : ℚ :=
  ((nonIgnored combined).map (fun t => t.shares_old * t.price)).sum

/-- `new_value` (core.py line 226). -/
def newValue (combined : List TradeRecord) : ℚ :=
  ((nonIgnored combined).map (fun t => t.shares * t.price)).sum

/-- `total_trade_value` (core.py line 229). -/
def totalTradeValue (combined : List TradeRecord) : ℚ :=
  ((nonIgnored combined).map (fun t => |t.trade_value|)).sum

/-- The `trade_value` sum restricted to one action
(core.py lines 230-232). -/
def actionValue (a : Action) (combined : List TradeRecord) : ℚ :=
  (((nonIgnored combined).filter (fun t => decide (t.action = a))).map (·.trade_value)).sum

/-- The numeric fields of the summary dictionary (core.py lines 253-266),
before the presentation-layer `round`/format calls; `new_buys` and
`sold_stocks` carry the full filtered rows whose projected columns the
code serialises. -/
structure Summary where
  old_portfolio_value : ℚ
  new_portfolio_value : ℚ
  total_trade_value : ℚ
  buy_value : ℚ
  sell_value : ℚ
  adjust_value : ℚ
  dollar_turnover_pct : ℚ
  share_turnover_pct : ℚ
  total_new_shares : ℚ
  total_sold_shares : ℚ
  new_buys : List TradeRecord
  sold_stocks : List TradeRecord
deriving DecidableEq, Repr

/-- `portfolio_summary(combined, round_digits)` (core.py lines 186-268),
carrying the unrounded numeric values (rounding and percent formatting at
lines 254-261 are presentation only; `round_digits` influences nothing
modelled here). -/
def portfolio_summary (combined : List TradeRecord) : Summary :=
  let ps := nonIgnored combined
  let old_value := oldValue combined
  let new_value := newValue combined
  let total_trade := totalTradeValue combined
  let dollar_turnover_pct := if new_value > 0 then total_trade / new_value else 0
  let total_avg_shares := (ps.map (fun t => (t.shares_old + t.shares) / 2)).sum
  let share_turnover_pct := (ps.map (fun t => |t.trade_shares|)).sum / total_avg_shares * 100
  let new_buys := ps.filter (fun t => decide (t.action = .BUY))
  let sold := ps.filter (fun t => decide (t.action = .SELL))
  ⟨old_value, new_value, total_trade,
    actionValue .BUY combined, actionValue .SELL combined, actionValue .ADJUST combined,
    dollar_turnover_pct, share_turnover_pct,
    (new_buys.map (·.trade_shares)).sum, (sold.map (·.shares_old)).sum,
    new_buys, sold⟩

/-! ## Validation behaviour of `index_construct` -/

/-- `true` iff the call returned a result instead of raising. -/
def isOkE : Except Err α → Bool
  | .ok _ => true
  | .error _ => false

theorem normDF_dates (df : DataFrame) :
    (normDF df).rows.map (·.date) = df.rows.map (fun r => normDate r.date) := by
  simp [normDF]

/-- Inversion: a successful `index_construct` call means every validation
passed, the caller's DataFrame was date-normalised in place, and the result
is built from the date-filtered, descending-sorted subset. -/
theorem index_construct_ok_inv {df df' : DataFrame} {d : String} {c k : ℚ}
    {r : IndexResult} (h : index_construct df d c k = (df', .ok r)) :
    missingCols df = [] ∧ 0 < c ∧ c ≤ 1 ∧ 0 < k ∧
      d ∈ df.rows.map (fun x => normDate x.date) ∧ df' = normDF df ∧
      r = buildResult (sort_values_desc ((normDF df).rows.filter (fun x => x.date == d))) c k := by
  unfold index_construct at h
  by_cases h1 : missingCols df ≠ []
  · rw [if_pos h1] at h
    simp at h
  rw [if_neg h1] at h
  push_neg at h1
  by_cases h2 : c ≤ 0 ∨ 1 < c
  · rw [if_pos h2] at h
    simp at h
  rw [if_neg h2] at h
  push_neg at h2
  by_cases h3 : k ≤ 0
  · rw [if_pos h3] at h
    simp at h
  rw [if_neg h3] at h
  push_neg at h3
  by_cases h4 : d ∉ (normDF df).rows.map (·.date)
  · rw [if_pos h4] at h
    simp at h
  rw [if_neg h4] at h
  push_neg at h4
  obtain ⟨hdf, hr⟩ := Prod.mk.injEq .. ▸ h
  refine ⟨h1, h2.1, h2.2, h3, ?_, hdf.symm, (Except.ok.injEq .. ▸ hr).symm⟩
  rw [← normDF_dates]
  exact h4

/-- A successful call, conversely: if every validation passes the function
returns `ok` on the built result. -/
theorem index_construct_ok_of_valid {df : DataFrame} {d : String} {c k : ℚ}
    (h1 : missingCols df = []) (h2 : 0 < c) (h3 : c ≤ 1) (h4 : 0 < k)
    (h5 : d ∈ df.rows.map (fun x => normDate x.date)) :
    index_construct df d c k =
      (normDF df,
       .ok (buildResult (sort_values_desc ((normDF df).rows.filter (fun x => x.date == d))) c k)) := by
  unfold index_construct
  rw [if_neg (by simp [h1]), if_neg (by push_neg; exact ⟨h2, h3⟩),
    if_neg (by push_neg; exact h4), if_neg (by push_neg; rw [normDF_dates]; exact h5)]

/-- C6: `index_construct` raises a `ValidationError` exactly when a required
column is missing, or the cutoff lies outside `(0, 1]`, or the capital is
non-positive, or the requested date is absent from the day-normalised date
column; for all other inputs it returns a result. -/
theorem index_construct_error_iff (df : DataFrame) (d : String) (c k : ℚ) :
    isOkE (index_construct df d c k).2 = false ↔
      (missingCols df ≠ [] ∨ c ≤ 0 ∨ 1 < c ∨ k ≤ 0 ∨
        d ∉ df.rows.map (fun x => normDate x.date)) := by
  constructor
  · intro h
    by_contra hc
    push_neg at hc
    obtain ⟨hc1, hc2, hc3, hc4, hc5⟩ := hc
    rw [index_construct_ok_of_valid hc1 hc2 hc3 hc4 hc5] at h
    simp [isOkE] at h
  · intro h
    unfold index_construct
    by_cases h1 : missingCols df ≠ []
    · rw [if_pos h1]
      simp [isOkE]
    rw [if_neg h1]
    by_cases h2 : c ≤ 0 ∨ 1 < c
    · rw [if_pos h2]
      simp [isOkE]
    rw [if_neg h2]
    by_cases h3 : k ≤ 0
    · rw [if_pos h3]
      simp [isOkE]
    rw [if_neg h3]
    by_cases h4 : d ∉ (normDF df).rows.map (·.date)
    · rw [if_pos h4]
      simp [isOkE]
    rw [if_neg h4]
    exfalso
    push_neg at h1 h4
    rcases h with h | h | h | h | h
    · exact h h1
    · exact h2 (Or.inl h)
    · exact h2 (Or.inr h)
    · exact h3 h
    · rw [← normDF_dates] at h
      exact h h4

/-! ## C3: there is no price validation -/

/-- Counterexample to the claim that a non-positive price on an included row
makes `construct_index` fail with a `ValidationError`: company `B` carries
price `0` on the requested date, lands inside the cutoff (`cumulative = 1 ≤ 1`),
and the call nevertheless returns `ok`, with `shares = allocation / price`
computed anyway (in the float code this quotient is `inf`; the model's
total division renders the quotient `40 / 0` as `0` — the refuted point is
the absence of any raised error, not the quotient's value). -/
theorem index_construct_zero_price_returns_ok :
    (index_construct
        ⟨requiredCols, [⟨"2025-01-01", "A", 60, 2⟩, ⟨"2025-01-01", "B", 40, 0⟩]⟩
        "2025-01-01" 1 100).2 =
      Except.ok ⟨100, [⟨"2025-01-01", "A", 60, 2, 3/5, 3/5, 60, 30⟩,
                       ⟨"2025-01-01", "B", 40, 0, 2/5, 1, 40, 40/0⟩], []⟩ := by
  with_unfolding_all decide

/-- C3 (amended): `construct_index` performs no validation of prices at all.
Whenever the four actual validations (columns, cutoff, capital, date
presence) pass, the call returns a result — whatever the prices are, zero
and negative included — and every included row's `shares` is computed as
`allocation / price` regardless. -/
theorem index_construct_no_price_validation {df : DataFrame} {d : String} {c k : ℚ}
    (h1 : missingCols df = []) (h2 : 0 < c) (h3 : c ≤ 1) (h4 : 0 < k)
    (h5 : d ∈ df.rows.map (fun x => normDate x.date)) :
    isOkE (index_construct df d c k).2 = true ∧
      ∀ x ∈ (buildResult (sort_values_desc ((normDF df).rows.filter
        (fun x => x.date == d))) c k).universe_in, x.shares = x.allocation / x.price := by
  refine ⟨by rw [index_construct_ok_of_valid h1 h2 h3 h4 h5]; rfl, ?_⟩
  intro x hx
  simp only [buildResult, List.mem_map] at hx
  obtain ⟨y, _, hy⟩ := hx
  rw [← hy]
  rfl

/-- Witness: the amended C3 theorem applied to the concrete price-zero
dataset of the counterexample. -/
theorem index_construct_no_price_validation_witness :
    isOkE (index_construct
        ⟨requiredCols, [⟨"2025-01-01", "A", 60, 2⟩, ⟨"2025-01-01", "B", 40, 0⟩]⟩
        "2025-01-01" 1 100).2 = true :=
  (index_construct_no_price_validation (by with_unfolding_all decide)
    (by with_unfolding_all decide) (by with_unfolding_all decide)
    (by with_unfolding_all decide) (by with_unfolding_all decide)).1

/-! ## C4: the caller's DataFrame is mutated in place -/

/-- C4 (amended): `construct_index` is not side-effect free, but its only
side effect is core.py line 54: once the column/cutoff/capital validations
pass (even if the date-presence check then fails), the caller's DataFrame
has its `date` column overwritten with the day-normalised dates; columns,
row count, row order and all other fields are unchanged.  If one of the
first three validations fails the DataFrame is untouched. -/
theorem index_construct_mutation (df : DataFrame) (d : String) (c k : ℚ) :
    (index_construct df d c k).1 =
      if missingCols df = [] ∧ (0 < c ∧ c ≤ 1) ∧ 0 < k then normDF df else df := by
  unfold index_construct
  by_cases h1 : missingCols df ≠ []
  · rw [if_pos h1, if_neg (by simp [h1])]
  rw [if_neg h1]
  push_neg at h1
  by_cases h2 : c ≤ 0 ∨ 1 < c
  · rw [if_pos h2, if_neg ?_]
    rintro ⟨-, ⟨hl, hr⟩, -⟩
    rcases h2 with h2 | h2
    · exact absurd hl (not_lt_of_le h2)
    · exact absurd h2 (not_lt_of_le hr)
  rw [if_neg h2]
  push_neg at h2
  by_cases h3 : k ≤ 0
  · rw [if_pos h3, if_neg (by rintro ⟨-, -, hk⟩; exact absurd hk (not_lt_of_le h3))]
  rw [if_neg h3]
  push_neg at h3
  by_cases h4 : d ∉ (normDF df).rows.map (·.date)
  · rw [if_pos h4, if_pos ⟨h1, h2, h3⟩]
  · rw [if_neg h4, if_pos ⟨h1, h2, h3⟩]

/-- Counterexample to "the caller's dataset is unchanged": a dataset whose
date strings carry a time component comes back with its `date` column
rewritten (`"2025-08-04 00:00:00"` becomes `"2025-08-04"`), even though the
call merely computed an index. -/
theorem index_construct_mutates_caller_df :
    (index_construct ⟨requiredCols, [⟨"2025-08-04 00:00:00", "A", 60, 2⟩]⟩
        "2025-08-04" 1 100).1 ≠
      ⟨requiredCols, [⟨"2025-08-04 00:00:00", "A", 60, 2⟩]⟩ := by
  with_unfolding_all decide

/-! ## C5: the included/excluded split is a partition -/

theorem insertAscMC_perm (r : MarketRow) (l : List MarketRow) :
    (insertAscMC r l).Perm (r :: l) := by
  induction l with
  | nil => exact List.Perm.refl _
  | cons x xs ih =>
      unfold insertAscMC
      by_cases h : r.market_cap_m ≤ x.market_cap_m
      · rw [if_pos h]
      · rw [if_neg h]
        exact (List.Perm.cons x ih).trans (List.Perm.swap r x xs)

theorem sortAscMC_perm (l : List MarketRow) : (sortAscMC l).Perm l := by
  induction l with
  | nil => exact List.Perm.refl _
  | cons x xs ih => exact (insertAscMC_perm x (sortAscMC xs)).trans (List.Perm.cons x ih)

theorem sort_values_desc_perm (l : List MarketRow) : (sort_values_desc l).Perm l := by
  unfold sort_values_desc
  exact ((sortAscMC l.reverse).reverse_perm).trans ((sortAscMC_perm l.reverse).trans l.reverse_perm)

theorem withWeightCum_map_company (total : ℚ) (acc : ℚ) (l : List MarketRow) :
    (withWeightCum total acc l).map (·.company) = l.map (·.company) := by
  induction l generalizing acc with
  | nil => rfl
  | cons x xs ih =>
      unfold withWeightCum
      simp only [List.map_cons, ih]

/-- The two filters of core.py lines 73/75 use complementary predicates. -/
theorem filter_cum_complement (c : ℚ) (l : List OutRow) :
    l.filter (fun r => decide (c < r.cumulative)) =
      l.filter (fun r => !decide (r.cumulative ≤ c)) := by
  refine List.filter_congr ?_
  intro x _
  by_cases h : x.cumulative ≤ c
  · simp [h, not_lt_of_le h]
  · simp [h, lt_of_not_le h]

/-- Filtering the date-normalised rows by the raw date and projecting to
companies is the same as filtering the raw rows by the normalised date. -/
theorem map_norm_filter_company (d : String) (l : List MarketRow) :
    ((l.map (fun r => { r with date := normDate r.date })).filter
        (fun x => x.date == d)).map (·.company) =
      (l.filter (fun x => normDate x.date == d)).map (·.company) := by
  rw [List.filter_map, List.map_map]
  have h1 : ((fun x : MarketRow => x.company) ∘
      (fun r : MarketRow => { r with date := normDate r.date })) =
      fun x : MarketRow => x.company := funext (fun r => by simp)
  have h2 : ((fun x : MarketRow => x.date == d) ∘
      (fun r : MarketRow => { r with date := normDate r.date })) =
      fun x : MarketRow => normDate x.date == d := funext (fun r => by simp)
  rw [h1, h2]

/-- C5 (amended): for every successful `construct_index` call on a date
whose total market cap is nonzero, the included/excluded split partitions
the *rows* filtered to the requested date: row membership is decided by
`cumulative_weight ≤ cutoff` (a row at the boundary is included, the
remainder satisfies `cumulative > cutoff`), and the combined companies of
the two universes are exactly the companies of the date-filtered rows.
The two *company sets* are moreover disjoint — and hence partition the
companies of that date — whenever no company appears twice on the date
(they can overlap when a company has duplicate rows, see the
counterexample).

The `total_mc ≠ 0` guard keeps the statement within the range where the
rational model is faithful to the float code: on a date with zero total
market cap, `subset["weight"] = subset["market_cap_m"] / 0.0`
(core.py line 69) produces NaN weights, `NaN <= cutoff` and
`NaN > cutoff` are both false at lines 73/75, and the rows of that date
land in *neither* universe — the partition genuinely fails in the
program there, whereas `ℚ`'s totalised `0 / 0 = 0` would include the
rows.  (The proof holds in the model without the guard; the guard
restricts the assertion to the behaviour shared by model and program,
exactly as the positive-total hypothesis does for the allocation bound
below.) -/
theorem index_construct_partition {df df' : DataFrame} {d : String} {c k : ℚ}
    {r : IndexResult} (h : index_construct df d c k = (df', .ok r))
    (_htot : r.total_mc ≠ 0) :
    ((r.universe_in.map (·.company) ++ r.universe_out.map (·.company)).Perm
        ((df.rows.filter (fun x => normDate x.date == d)).map (·.company))) ∧
    (∀ x ∈ r.universe_in, x.cumulative ≤ c) ∧
    (∀ x ∈ r.universe_out, c < x.cumulative) ∧
    (((df.rows.filter (fun x => normDate x.date == d)).map (·.company)).Nodup →
      companiesIn r.universe_in ∩ companiesOut r.universe_out = ∅ ∧
      companiesIn r.universe_in ∪ companiesOut r.universe_out =
        ((df.rows.filter (fun x => normDate x.date == d)).map (·.company)).toFinset) := by
  obtain ⟨-, -, -, -, -, -, hr⟩ := index_construct_ok_inv h
  have hsubset : ((normDF df).rows.filter (fun x => x.date == d)).map (·.company) =
      (df.rows.filter (fun x => normDate x.date == d)).map (·.company) :=
    map_norm_filter_company d df.rows
  have hin : r.universe_in =
      ((wrowsOf (sort_values_desc ((normDF df).rows.filter (fun x => x.date == d)))).filter
        (fun x => decide (x.cumulative ≤ c))).map (mkIn k) := by
    rw [hr]
    rfl
  have hout : r.universe_out =
      (wrowsOf (sort_values_desc ((normDF df).rows.filter (fun x => x.date == d)))).filter
        (fun x => decide (c < x.cumulative)) := by
    rw [hr]
    rfl
  have hinc : r.universe_in.map (·.company) =
      ((wrowsOf (sort_values_desc ((normDF df).rows.filter (fun x => x.date == d)))).filter
        (fun x => decide (x.cumulative ≤ c))).map (·.company) := by
    rw [hin, List.map_map]
    rfl
  have hperm : (r.universe_in.map (·.company) ++ r.universe_out.map (·.company)).Perm
      ((df.rows.filter (fun x => normDate x.date == d)).map (·.company)) := by
    rw [hinc, hout, filter_cum_complement, ← List.map_append]
    refine ((List.filter_append_perm (fun x => decide (x.cumulative ≤ c))
      (wrowsOf (sort_values_desc ((normDF df).rows.filter
        (fun x => x.date == d))))).map (fun x : OutRow => x.company)).trans ?_
    rw [wrowsOf, withWeightCum_map_company, ← hsubset]
    exact (sort_values_desc_perm _).map _
  refine ⟨hperm, ?_, ?_, ?_⟩
  · intro x hx
    rw [hin] at hx
    obtain ⟨y, hy, hxy⟩ := List.mem_map.mp hx
    rw [← hxy]
    exact of_decide_eq_true (List.mem_filter.mp hy).2
  · intro x hx
    rw [hout] at hx
    exact of_decide_eq_true (List.mem_filter.mp hx).2
  · intro hnd
    have hnd' : (r.universe_in.map (·.company) ++ r.universe_out.map (·.company)).Nodup :=
      hperm.symm.nodup hnd
    obtain ⟨-, -, hdisj⟩ := List.nodup_append.mp hnd'
    constructor
    · rw [Finset.eq_empty_iff_forall_not_mem]
      intro a ha
      obtain ⟨ha1, ha2⟩ := Finset.mem_inter.mp ha
      exact hdisj (List.mem_toFinset.mp ha1) (List.mem_toFinset.mp ha2)
    · unfold companiesIn companiesOut
      rw [← List.toFinset_append]
      exact List.toFinset_eq_of_perm _ _ hperm

/-- Witness: the partition theorem applied to a concrete two-company call
(companies unique on the date, so the company sets are disjoint). -/
theorem index_construct_partition_witness :
    companiesIn [⟨"2025-01-01", "A", 60, 2, 3/5, 3/5, 60, 30⟩] ∩
      companiesOut [⟨"2025-01-01", "B", 40, 4, 2/5, 1⟩] = ∅ :=
  ((index_construct_partition
      (by with_unfolding_all decide :
        index_construct ⟨requiredCols,
          [⟨"2025-01-01", "A", 60, 2⟩, ⟨"2025-01-01", "B", 40, 4⟩]⟩
          "2025-01-01" (17/20) 100 =
        (⟨requiredCols, [⟨"2025-01-01", "A", 60, 2⟩, ⟨"2025-01-01", "B", 40, 4⟩]⟩,
         .ok ⟨100, [⟨"2025-01-01", "A", 60, 2, 3/5, 3/5, 60, 30⟩],
                   [⟨"2025-01-01", "B", 40, 4, 2/5, 1⟩]⟩))
      (by with_unfolding_all decide)).2.2.2
    (by with_unfolding_all decide)).1

/-- Counterexample to the company-level partition claim: a dataset in which
company `A` has two rows on the requested date.  One row lands inside the
cutoff and the other outside, so `A` is a member of *both* the included and
the excluded company sets — the two sets fail to be disjoint. -/
theorem index_construct_duplicate_company_overlap :
    (index_construct ⟨requiredCols, [⟨"2025-01-01", "A", 60, 2⟩, ⟨"2025-01-01", "A", 40, 4⟩]⟩
        "2025-01-01" (17/20) 100).2 =
      Except.ok ⟨100, [⟨"2025-01-01", "A", 60, 2, 3/5, 3/5, 60, 30⟩],
                      [⟨"2025-01-01", "A", 40, 4, 2/5, 1⟩]⟩ ∧
    companiesIn [⟨"2025-01-01", "A", 60, 2, 3/5, 3/5, 60, 30⟩] ∩
      companiesOut [⟨"2025-01-01", "A", 40, 4, 2/5, 1⟩] = {"A"} := by
  constructor
  · with_unfolding_all decide
  · with_unfolding_all decide

/-! ## C10: the allocated capital never exceeds the capital supplied -/

theorem withWeightCum_mem_weight {t : ℚ} {l : List MarketRow} :
    ∀ {acc : ℚ} {x : OutRow}, x ∈ withWeightCum t acc l →
      ∃ rr ∈ l, x.weight = rr.market_cap_m / t := by
  induction l with
  | nil => intro acc x hx; cases hx
  | cons r rs ih =>
      intro acc x hx
      unfold withWeightCum at hx
      rcases List.mem_cons.mp hx with hx | hx
      · exact ⟨r, List.mem_cons_self r rs, by rw [hx]⟩
      · obtain ⟨rr, hrr, hweq⟩ := ih hx
        exact ⟨rr, List.mem_cons_of_mem r hrr, hweq⟩

theorem withWeightCum_cum_lb {t : ℚ} {l : List MarketRow}
    (hw : ∀ rr ∈ l, 0 ≤ rr.market_cap_m / t) :
    ∀ {acc : ℚ} {x : OutRow}, x ∈ withWeightCum t acc l → acc ≤ x.cumulative := by
  induction l with
  | nil => intro acc x hx; cases hx
  | cons r rs ih =>
      intro acc x hx
      unfold withWeightCum at hx
      rcases List.mem_cons.mp hx with hx | hx
      · rw [hx]
        exact le_add_of_nonneg_right (hw r (List.mem_cons_self r rs))
      · calc acc ≤ acc + r.market_cap_m / t :=
              le_add_of_nonneg_right (hw r (List.mem_cons_self r rs))
          _ ≤ x.cumulative := ih (fun rr h => hw rr (List.mem_cons_of_mem r h)) hx

theorem withWeightCum_pairwise {t : ℚ} {l : List MarketRow}
    (hw : ∀ rr ∈ l, 0 ≤ rr.market_cap_m / t) (acc : ℚ) :
    (withWeightCum t acc l).Pairwise (fun a b => a.cumulative ≤ b.cumulative) := by
  induction l generalizing acc with
  | nil => exact List.Pairwise.nil
  | cons r rs ih =>
      refine List.Pairwise.cons ?_ (ih (fun rr h => hw rr (List.mem_cons_of_mem r h)) _)
      intro y hy
      exact withWeightCum_cum_lb (fun rr h => hw rr (List.mem_cons_of_mem r h)) hy

/-- The cumulative weight of the last element, or the start value `acc` for
an empty list. -/
def lastCum (acc : ℚ) (l : List OutRow) : ℚ :=
  l.getLast?.elim acc (·.cumulative)

theorem lastCum_nil (acc : ℚ) : lastCum acc [] = acc := rfl

theorem lastCum_cons (acc : ℚ) (a : OutRow) (l : List OutRow) :
    lastCum acc (a :: l) = lastCum a.cumulative l := by
  cases l with
  | nil => rfl
  | cons b l' =>
      unfold lastCum
      rw [List.getLast?_cons_cons]
      rcases hgl : (b :: l').getLast? with _ | w
      · simp at hgl
      · rfl

theorem lastCum_eq_of_getLast? {acc : ℚ} {l : List OutRow} {z : OutRow}
    (h : l.getLast? = some z) : lastCum acc l = z.cumulative := by
  unfold lastCum
  rw [h]
  rfl

/-- The weights of the `cumulative ≤ c` slice telescope: their sum is the
last kept cumulative value minus the starting accumulator. -/
theorem withWeightCum_filter_sum {t c : ℚ} {l : List MarketRow}
    (hw : ∀ rr ∈ l, 0 ≤ rr.market_cap_m / t) :
    ∀ acc : ℚ,
      (((withWeightCum t acc l).filter (fun x => decide (x.cumulative ≤ c))).map
        (·.weight)).sum =
      lastCum acc ((withWeightCum t acc l).filter (fun x => decide (x.cumulative ≤ c))) -
        acc := by
  induction l with
  | nil =>
      intro acc
      show (0 : ℚ) = acc - acc
      rw [sub_self]
  | cons r rs ih =>
      intro acc
      have hwr : 0 ≤ r.market_cap_m / t := hw r (List.mem_cons_self r rs)
      have hwrs : ∀ rr ∈ rs, 0 ≤ rr.market_cap_m / t :=
        fun rr h => hw rr (List.mem_cons_of_mem r h)
      have htail := ih hwrs (acc + r.market_cap_m / t)
      unfold withWeightCum
      by_cases hc : acc + r.market_cap_m / t ≤ c
      · simp only [List.filter_cons, decide_eq_true_eq]
        rw [if_pos hc]
        simp only [List.map_cons, List.sum_cons, lastCum_cons]
        rw [htail]
        ring
      · simp only [List.filter_cons, decide_eq_true_eq]
        rw [if_neg hc]
        have hempty : (withWeightCum t (acc + r.market_cap_m / t) rs).filter
            (fun x => decide (x.cumulative ≤ c)) = [] := by
          rw [List.filter_eq_nil_iff]
          intro x hx
          have hlb := withWeightCum_cum_lb hwrs hx
          simp only [decide_eq_true_eq]
          intro hxc
          exact hc (le_trans hlb hxc)
        rw [hempty, lastCum_nil]
        show (0 : ℚ) = acc - acc
        rw [sub_self]

/-- In a list pairwise-sorted by `cumulative`, every element is bounded by
the last one. -/
theorem pairwise_cum_le_getLast {l : List OutRow}
    (hp : l.Pairwise (fun a b => a.cumulative ≤ b.cumulative)) :
    ∀ {z : OutRow}, l.getLast? = some z → ∀ y ∈ l, y.cumulative ≤ z.cumulative := by
  induction l with
  | nil => intro z hz; cases hz
  | cons a l' ih =>
      intro z hz y hy
      obtain ⟨ha, hp'⟩ := List.pairwise_cons.mp hp
      cases l' with
      | nil =>
          have hz' : a = z := by simpa using hz
          have hy' : y = a := by simpa using hy
          rw [hy', hz']
      | cons b l'' =>
          rw [List.getLast?_cons_cons] at hz
          rcases List.mem_cons.mp hy with hy | hy
          · rw [hy]
            exact ha z (List.mem_of_getLast?_eq_some hz)
          · exact ih hp' hz y hy

set_option maxHeartbeats 1600000 in
/-- C10: for every successful `construct_index` call on a dataset whose
market caps on the requested date are non-negative with positive total, the
sum of `allocation` over the included rows equals `capital` times the last
(equivalently largest) included `cumulative_weight`, and is bounded by
`capital * cutoff ≤ capital`: the allocated capital never exceeds the
capital supplied. -/
theorem index_construct_allocation_bound {df df' : DataFrame} {d : String} {c k : ℚ}
    {r : IndexResult} (h : index_construct df d c k = (df', .ok r))
    (hmc : ∀ x ∈ df.rows, normDate x.date = d → 0 ≤ x.market_cap_m)
    (htot : 0 < r.total_mc) :
    ((r.universe_in.map (·.allocation)).sum ≤ k * c ∧ k * c ≤ k) ∧
    (∀ x, r.universe_in.getLast? = some x →
      (r.universe_in.map (·.allocation)).sum = k * x.cumulative ∧
      ∀ y ∈ r.universe_in, y.cumulative ≤ x.cumulative) := by
  obtain ⟨-, hc0, hc1, hk0, -, -, hr⟩ := index_construct_ok_inv h
  have htot' : 0 < totalMC (sort_values_desc ((normDF df).rows.filter
      (fun x => x.date == d))) := by
    rw [hr] at htot
    exact htot
  have hsortmem : ∀ x ∈ sort_values_desc ((normDF df).rows.filter (fun x => x.date == d)),
      0 ≤ x.market_cap_m := by
    intro x hx
    have hx' : x ∈ (normDF df).rows.filter (fun y => y.date == d) :=
      (sort_values_desc_perm _).mem_iff.mp hx
    obtain ⟨hxr, hxd⟩ := List.mem_filter.mp hx'
    obtain ⟨y, hy, hxy⟩ := List.mem_map.mp hxr
    have hxd' : x.date = d := eq_of_beq hxd
    have hxdate : x.date = normDate y.date := by rw [← hxy]
    have hdate : normDate y.date = d := by
      rw [← hxdate]
      exact hxd'
    have hxmc : x.market_cap_m = y.market_cap_m := by rw [← hxy]
    rw [hxmc]
    exact hmc y hy hdate
  have hw : ∀ rr ∈ sort_values_desc ((normDF df).rows.filter (fun x => x.date == d)),
      0 ≤ rr.market_cap_m / totalMC (sort_values_desc ((normDF df).rows.filter
        (fun x => x.date == d))) :=
    fun rr hrr => div_nonneg (hsortmem rr hrr) (le_of_lt htot')
  have hin : r.universe_in =
      ((wrowsOf (sort_values_desc ((normDF df).rows.filter (fun x => x.date == d)))).filter
        (fun x => decide (x.cumulative ≤ c))).map (mkIn k) := by
    rw [hr]
    rfl
  have halloc : (r.universe_in.map (·.allocation)).sum =
      k * ((((wrowsOf (sort_values_desc ((normDF df).rows.filter
          (fun x => x.date == d)))).filter (fun x => decide (x.cumulative ≤ c))).map
          (·.weight)).sum) := by
    rw [hin, List.map_map, ← List.sum_map_mul_left]
    rfl
  have hsum : (((wrowsOf (sort_values_desc ((normDF df).rows.filter
      (fun x => x.date == d)))).filter (fun x => decide (x.cumulative ≤ c))).map
      (·.weight)).sum =
      lastCum 0 ((wrowsOf (sort_values_desc ((normDF df).rows.filter
        (fun x => x.date == d)))).filter (fun x => decide (x.cumulative ≤ c))) - 0 :=
    withWeightCum_filter_sum hw 0
  have hpw : ((wrowsOf (sort_values_desc ((normDF df).rows.filter
      (fun x => x.date == d)))).filter (fun x => decide (x.cumulative ≤ c))).Pairwise
      (fun a b => a.cumulative ≤ b.cumulative) :=
    List.Pairwise.sublist (List.filter_sublist _) (withWeightCum_pairwise hw 0)
  rcases hlast : ((wrowsOf (sort_values_desc ((normDF df).rows.filter
      (fun x => x.date == d)))).filter (fun x => decide (x.cumulative ≤ c))).getLast? with
    _ | z
  · have hnil : (wrowsOf (sort_values_desc ((normDF df).rows.filter
        (fun x => x.date == d)))).filter (fun x => decide (x.cumulative ≤ c)) = [] :=
      List.getLast?_eq_none_iff.mp hlast
    have hempty : r.universe_in = [] := by
      rw [hin, hnil]
      rfl
    constructor
    · constructor
      · rw [hempty]
        simp only [List.map_nil, List.sum_nil]
        exact le_of_lt (mul_pos hk0 hc0)
      · calc k * c ≤ k * 1 := mul_le_mul_of_nonneg_left hc1 (le_of_lt hk0)
          _ = k := mul_one k
    · intro x hx
      rw [hempty] at hx
      cases hx
  · have hzc : z.cumulative ≤ c := by
      have hzmem := List.mem_of_getLast?_eq_some hlast
      exact of_decide_eq_true (List.mem_filter.mp hzmem).2
    have hsum' : (r.universe_in.map (·.allocation)).sum = k * z.cumulative := by
      rw [halloc, hsum, lastCum_eq_of_getLast? hlast]
      ring
    constructor
    · constructor
      · rw [hsum']
        exact mul_le_mul_of_nonneg_left hzc (le_of_lt hk0)
      · calc k * c ≤ k * 1 := mul_le_mul_of_nonneg_left hc1 (le_of_lt hk0)
          _ = k := mul_one k
    · intro x hx
      have hxl : r.universe_in.getLast? = some (mkIn k z) := by
        rw [hin, List.getLast?_map, hlast]
        rfl
      rw [hxl] at hx
      have hxz : x = mkIn k z := by injection hx with h; exact h.symm
      constructor
      · rw [hsum', hxz]
        rfl
      · intro y hy
        rw [hin] at hy
        obtain ⟨w, hwmem, hwy⟩ := List.mem_map.mp hy
        have hwz : w.cumulative ≤ z.cumulative :=
          pairwise_cum_le_getLast hpw hlast w hwmem
        rw [← hwy, hxz]
        exact hwz

/-- Witness: the allocation-bound theorem applied to the concrete
two-company call; the allocated sum is `60 ≤ 85 = capital * cutoff`. -/
theorem index_construct_allocation_bound_witness :
    (([⟨"2025-01-01", "A", 60, 2, 3/5, 3/5, 60, 30⟩] :
        List InRow).map (·.allocation)).sum ≤ 100 * (17/20) ∧
      (100 : ℚ) * (17/20) ≤ 100 :=
  (index_construct_allocation_bound
    (by with_unfolding_all decide :
      index_construct ⟨requiredCols,
        [⟨"2025-01-01", "A", 60, 2⟩, ⟨"2025-01-01", "B", 40, 4⟩]⟩
        "2025-01-01" (17/20) 100 =
      (⟨requiredCols, [⟨"2025-01-01", "A", 60, 2⟩, ⟨"2025-01-01", "B", 40, 4⟩]⟩,
       .ok ⟨100, [⟨"2025-01-01", "A", 60, 2, 3/5, 3/5, 60, 30⟩],
                 [⟨"2025-01-01", "B", 40, 4, 2/5, 1⟩]⟩))
    (by
      intro x hx hd
      rcases List.mem_cons.mp hx with hx | hx
      · rw [hx]
        norm_num
      · rcases List.mem_cons.mp hx with hx | hx
        · rw [hx]
          norm_num
        · cases hx)
    (by with_unfolding_all decide)).1

/-! ## C7: invariants of every TradeRecord -/

theorem mapME_ok_mem {α β : Type} {f : α → Except Err β} :
    ∀ {l : List α} {ys : List β}, mapME f l = .ok ys →
      ∀ y ∈ ys, ∃ x ∈ l, f x = .ok y := by
  intro l
  induction l with
  | nil =>
      intro ys h y hy
      unfold mapME at h
      injection h with h
      rw [← h] at hy
      cases hy
  | cons x xs ih =>
      intro ys h y hy
      unfold mapME at h
      rcases hfx : f x with e | y₀ <;> rw [hfx] at h
      · cases h
      · rcases hrest : mapME f xs with e | ys' <;> rw [hrest] at h
        · cases h
        · injection h with h
          rw [← h] at hy
          rcases List.mem_cons.mp hy with hy | hy
          · exact ⟨x, List.mem_cons_self x xs, by rw [hfx, hy]⟩
          · obtain ⟨x', hx', hfx'⟩ := ih hrest y hy
            exact ⟨x', List.mem_cons_of_mem x hx', hfx'⟩

/-- The invariant satisfied by every row of the combined table. -/
def tradeInvariant (t : TradeRecord) : Prop :=
  t.trade_value = t.trade_shares * t.price ∧
  t.trade_shares = t.shares - t.shares_old ∧
  (t.action = .SELL → t.shares = 0 ∧ t.allocation = 0) ∧
  (t.action = .BUY → t.shares_old = 0 ∧ t.allocation_old = 0) ∧
  (t.action = .IGNORE → t.shares_old = 0 ∧ t.allocation_old = 0 ∧ t.shares = 0 ∧
    t.allocation = 0 ∧ t.trade_shares = 0 ∧ t.trade_value = 0)

theorem mkAdjust_invariant (r old : InRow) : tradeInvariant (mkAdjust r old) := by
  refine ⟨rfl, rfl, ?_, ?_, ?_⟩ <;> (intro habs; cases habs)

theorem mkSell_invariant (r : InRow) : tradeInvariant (mkSell r) := by
  refine ⟨rfl, ?_, ?_, ?_, ?_⟩
  · show -r.shares = 0 - r.shares
    ring
  · intro _
    exact ⟨rfl, rfl⟩
  · intro habs; cases habs
  · intro habs; cases habs

theorem mkBuy_invariant (r : InRow) : tradeInvariant (mkBuy r) := by
  refine ⟨rfl, ?_, ?_, ?_, ?_⟩
  · show r.shares = r.shares - 0
    ring
  · intro habs; cases habs
  · intro _
    exact ⟨rfl, rfl⟩
  · intro habs; cases habs

theorem mkIgnore_invariant (r : OutRow) : tradeInvariant (mkIgnore r) := by
  refine ⟨?_, ?_, ?_, ?_, ?_⟩
  · show (0 : ℚ) = 0 * r.price
    ring
  · show (0 : ℚ) = 0 - 0
    ring
  · intro habs; cases habs
  · intro habs; cases habs
  · intro _
    exact ⟨rfl, rfl, rfl, rfl, rfl, rfl⟩

theorem buildTrades_invariants {old new : IndexResult} {ts : List TradeRecord}
    (h : buildTrades old new = .ok ts) : ∀ t ∈ ts, tradeInvariant t := by
  unfold buildTrades at h
  split at h
  · cases h
  · rename_i hold_df heq
    injection h with h
    intro t ht
    rw [← h] at ht
    rcases List.mem_append.mp ht with ht | ht
    · rcases List.mem_append.mp ht with ht | ht
      · rcases List.mem_append.mp ht with ht | ht
        · obtain ⟨x, -, hfx⟩ := mapME_ok_mem heq t ht
          rcases hlk : lookupOldIn old.universe_in x.company with e | oldrec <;>
            rw [hlk] at hfx
          · cases hfx
          · injection hfx with hfx
            rw [← hfx]
            exact mkAdjust_invariant x oldrec
        · obtain ⟨x, -, hx⟩ := List.mem_map.mp ht
          rw [← hx]
          exact mkSell_invariant x
      · obtain ⟨x, -, hx⟩ := List.mem_map.mp ht
        rw [← hx]
        exact mkBuy_invariant x
    · obtain ⟨x, -, hx⟩ := List.mem_map.mp ht
      rw [← hx]
      exact mkIgnore_invariant x

/-- C7: every row of the combined table produced by `rebalancing` satisfies
`trade_value = trade_shares * price` and `trade_shares = shares - shares_old`;
SELL rows carry `shares = allocation = 0` (so `trade_shares = -shares_old`),
BUY rows carry `shares_old = allocation_old = 0` (so `trade_shares = shares`),
and IGNORE rows are all-zero apart from the retained price. -/
theorem rebalancing_trade_invariants {df df' : DataFrame} {od nd : String} {c k : ℚ}
    {ts : List TradeRecord} (h : rebalancing df od nd c k = (df', .ok ts)) :
    ∀ t ∈ ts, tradeInvariant t := by
  unfold rebalancing at h
  split at h
  · rename_i heq
    simp at h
  · rename_i df1 old heq
    split at h
    · rename_i heq2
      simp at h
    · rename_i df2 new heq2
      obtain ⟨-, hsnd⟩ := Prod.mk.injEq .. ▸ h
      exact buildTrades_invariants hsnd

/-- Witness: the invariant theorem applied to a concrete two-date
rebalancing whose combined table holds one SELL and one BUY row. -/
theorem rebalancing_trade_invariants_witness :
    (⟨"A", 30, 60, 0, 0, 2, -30, -60, .SELL⟩ : TradeRecord).trade_value =
      (⟨"A", 30, 60, 0, 0, 2, -30, -60, .SELL⟩ : TradeRecord).trade_shares *
      (⟨"A", 30, 60, 0, 0, 2, -30, -60, .SELL⟩ : TradeRecord).price :=
  (rebalancing_trade_invariants
    (by with_unfolding_all decide :
      rebalancing ⟨requiredCols,
          [⟨"2025-01-01", "A", 60, 2⟩, ⟨"2025-01-01", "B", 40, 4⟩,
           ⟨"2025-01-02", "A", 40, 2⟩, ⟨"2025-01-02", "B", 60, 4⟩]⟩
        "2025-01-01" "2025-01-02" (17/20) 100 =
      (⟨requiredCols,
          [⟨"2025-01-01", "A", 60, 2⟩, ⟨"2025-01-01", "B", 40, 4⟩,
           ⟨"2025-01-02", "A", 40, 2⟩, ⟨"2025-01-02", "B", 60, 4⟩]⟩,
       .ok [⟨"A", 30, 60, 0, 0, 2, -30, -60, .SELL⟩,
            ⟨"B", 0, 0, 15, 60, 4, 15, 60, .BUY⟩]))
    ⟨"A", 30, 60, 0, 0, 2, -30, -60, .SELL⟩
    (by with_unfolding_all decide)).1

/-! ## C1: the four action sets -/

/-- C1 (amended): whenever the included/excluded company sets of each date
are disjoint (which a successful `construct_index` call guarantees when no
company has duplicate rows on the date), the four action sets ADJUST/SELL/
BUY/IGNORE built by `rebalancing` are pairwise disjoint, and their union is
the *intersection* of the two dates' company universes: a company present
on both dates receives exactly one action, while a company present in only
one date's snapshots (for example one that trades on the old date but has
no rows on the new date) receives no action at all — the union need not
cover every company appearing in the four snapshot sets. -/
theorem trade_sets_partition (ino : List InRow) (outo : List OutRow)
    (inn : List InRow) (outn : List OutRow)
    (h1 : companiesIn ino ∩ companiesOut outo = ∅)
    (h2 : companiesIn inn ∩ companiesOut outn = ∅) :
    (hold_set ino inn ∩ sell_set ino outn = ∅ ∧
     hold_set ino inn ∩ buy_set outo inn = ∅ ∧
     hold_set ino inn ∩ ignore_set outo outn = ∅ ∧
     sell_set ino outn ∩ buy_set outo inn = ∅ ∧
     sell_set ino outn ∩ ignore_set outo outn = ∅ ∧
     buy_set outo inn ∩ ignore_set outo outn = ∅) ∧
    hold_set ino inn ∪ sell_set ino outn ∪ buy_set outo inn ∪ ignore_set outo outn =
      (companiesIn ino ∪ companiesOut outo) ∩ (companiesIn inn ∪ companiesOut outn) := by
  have h1' : ∀ a, ¬(a ∈ companiesIn ino ∧ a ∈ companiesOut outo) := by
    intro a ha
    rw [Finset.eq_empty_iff_forall_not_mem] at h1
    exact h1 a (Finset.mem_inter.mpr ha)
  have h2' : ∀ a, ¬(a ∈ companiesIn inn ∧ a ∈ companiesOut outn) := by
    intro a ha
    rw [Finset.eq_empty_iff_forall_not_mem] at h2
    exact h2 a (Finset.mem_inter.mpr ha)
  constructor
  · refine ⟨?_, ?_, ?_, ?_, ?_, ?_⟩ <;>
      (rw [Finset.eq_empty_iff_forall_not_mem]
       intro a ha
       simp only [hold_set, sell_set, buy_set, ignore_set, Finset.mem_inter] at ha
       first
         | exact h2' a ⟨ha.1.2, ha.2.2⟩
         | exact h1' a ⟨ha.1.1, ha.2.1⟩)
  · apply Finset.ext
    intro a
    simp only [hold_set, sell_set, buy_set, ignore_set,
      Finset.mem_union, Finset.mem_inter]
    tauto

/-- Witness: the partition theorem applied to a concrete pair of snapshots
(A included / B excluded on the old date, B included / A excluded on the
new date), where the union of the four sets is the full universe. -/
theorem trade_sets_partition_witness :
    companiesIn [⟨"2025-01-01", "A", 60, 2, 3/5, 3/5, 60, 30⟩] ∩
        companiesOut [⟨"2025-01-01", "B", 40, 4, 2/5, 1⟩] = ∅ ∧
    companiesIn [⟨"2025-01-02", "B", 60, 4, 3/5, 3/5, 60, 15⟩] ∩
        companiesOut [⟨"2025-01-02", "A", 40, 2, 2/5, 1⟩] = ∅ ∧
    hold_set [⟨"2025-01-01", "A", 60, 2, 3/5, 3/5, 60, 30⟩]
        [⟨"2025-01-02", "B", 60, 4, 3/5, 3/5, 60, 15⟩] ∪
      sell_set [⟨"2025-01-01", "A", 60, 2, 3/5, 3/5, 60, 30⟩]
        [⟨"2025-01-02", "A", 40, 2, 2/5, 1⟩] ∪
      buy_set [⟨"2025-01-01", "B", 40, 4, 2/5, 1⟩]
        [⟨"2025-01-02", "B", 60, 4, 3/5, 3/5, 60, 15⟩] ∪
      ignore_set [⟨"2025-01-01", "B", 40, 4, 2/5, 1⟩]
        [⟨"2025-01-02", "A", 40, 2, 2/5, 1⟩] =
      (companiesIn [⟨"2025-01-01", "A", 60, 2, 3/5, 3/5, 60, 30⟩] ∪
        companiesOut [⟨"2025-01-01", "B", 40, 4, 2/5, 1⟩]) ∩
      (companiesIn [⟨"2025-01-02", "B", 60, 4, 3/5, 3/5, 60, 15⟩] ∪
        companiesOut [⟨"2025-01-02", "A", 40, 2, 2/5, 1⟩]) :=
  ⟨by with_unfolding_all decide, by with_unfolding_all decide,
   (trade_sets_partition _ _ _ _ (by with_unfolding_all decide)
     (by with_unfolding_all decide)).2⟩

/-- Counterexample to the coverage half of the claim as stated: company `A`
trades only on the old date and company `B` only on the new date.  Both
calls succeed, `A` is included in the old snapshot, yet all four action
sets are empty and the combined table is empty: `A` (and `B`) receive no
action at all, so the union of the four sets does not equal the set of
companies appearing in the snapshots. -/
theorem rebalancing_one_sided_company_gets_no_action :
    rebalancing ⟨requiredCols, [⟨"2025-01-01", "A", 50, 10⟩, ⟨"2025-01-02", "B", 50, 10⟩]⟩
        "2025-01-01" "2025-01-02" 1 100 =
      (⟨requiredCols, [⟨"2025-01-01", "A", 50, 10⟩, ⟨"2025-01-02", "B", 50, 10⟩]⟩,
       .ok []) ∧
    (index_construct ⟨requiredCols, [⟨"2025-01-01", "A", 50, 10⟩, ⟨"2025-01-02", "B", 50, 10⟩]⟩
        "2025-01-01" 1 100).2 =
      .ok ⟨50, [⟨"2025-01-01", "A", 50, 10, 1, 1, 100, 10⟩], []⟩ ∧
    hold_set [⟨"2025-01-01", "A", 50, 10, 1, 1, 100, 10⟩]
        [⟨"2025-01-02", "B", 50, 10, 1, 1, 100, 10⟩] ∪
      sell_set [⟨"2025-01-01", "A", 50, 10, 1, 1, 100, 10⟩] [] ∪
      buy_set [] [⟨"2025-01-02", "B", 50, 10, 1, 1, 100, 10⟩] ∪
      ignore_set [] [] = (∅ : Finset String) ∧
    "A" ∈ companiesIn [⟨"2025-01-01", "A", 50, 10, 1, 1, 100, 10⟩] :=
  ⟨by with_unfolding_all decide, by with_unfolding_all decide,
   by with_unfolding_all decide, by with_unfolding_all decide⟩

/-! ## C8 and C9: the summary aggregator -/

/-- C8: `dollar_turnover_pct` is the ratio of the total absolute trade
value to the new portfolio value (both computed over the non-IGNORE rows)
when the latter is positive, and is defined as `0` — no error is raised —
otherwise (core.py line 234). -/
theorem portfolio_summary_dollar_turnover (combined : List TradeRecord) :
    (portfolio_summary combined).dollar_turnover_pct =
      if 0 < ((nonIgnored combined).map (fun t => t.shares * t.price)).sum then
        ((nonIgnored combined).map (fun t => |t.trade_value|)).sum /
          ((nonIgnored combined).map (fun t => t.shares * t.price)).sum
      else 0 := rfl

theorem nonIgnored_cons_ignore {t : TradeRecord} {ts : List TradeRecord}
    (ha : t.action = .IGNORE) : nonIgnored (t :: ts) = nonIgnored ts := by
  simp [nonIgnored, List.filter_cons, ha]

theorem nonIgnored_cons_keep {t : TradeRecord} {ts : List TradeRecord}
    (ha : t.action ≠ .IGNORE) : nonIgnored (t :: ts) = t :: nonIgnored ts := by
  simp [nonIgnored, List.filter_cons, ha]

theorem oldValue_cons_keep {t : TradeRecord} {ts : List TradeRecord}
    (ha : t.action ≠ .IGNORE) :
    oldValue (t :: ts) = t.shares_old * t.price + oldValue ts := by
  unfold oldValue
  rw [nonIgnored_cons_keep ha, List.map_cons, List.sum_cons]

theorem newValue_cons_keep {t : TradeRecord} {ts : List TradeRecord}
    (ha : t.action ≠ .IGNORE) :
    newValue (t :: ts) = t.shares * t.price + newValue ts := by
  unfold newValue
  rw [nonIgnored_cons_keep ha, List.map_cons, List.sum_cons]

theorem actionValue_cons_ignore {a : Action} {t : TradeRecord} {ts : List TradeRecord}
    (ha : t.action = .IGNORE) : actionValue a (t :: ts) = actionValue a ts := by
  unfold actionValue
  rw [nonIgnored_cons_ignore ha]

theorem actionValue_cons_keep_eq {a : Action} {t : TradeRecord} {ts : List TradeRecord}
    (ha : t.action ≠ .IGNORE) (hb : t.action = a) :
    actionValue a (t :: ts) = t.trade_value + actionValue a ts := by
  unfold actionValue
  rw [nonIgnored_cons_keep ha]
  simp only [List.filter_cons, decide_eq_true_eq]
  rw [if_pos hb, List.map_cons, List.sum_cons]

theorem actionValue_cons_keep_ne {a : Action} {t : TradeRecord} {ts : List TradeRecord}
    (ha : t.action ≠ .IGNORE) (hb : t.action ≠ a) :
    actionValue a (t :: ts) = actionValue a ts := by
  unfold actionValue
  rw [nonIgnored_cons_keep ha]
  simp only [List.filter_cons, decide_eq_true_eq]
  rw [if_neg hb]

theorem oldValue_cons_ignore {t : TradeRecord} {ts : List TradeRecord}
    (ha : t.action = .IGNORE) : oldValue (t :: ts) = oldValue ts := by
  unfold oldValue
  rw [nonIgnored_cons_ignore ha]

theorem newValue_cons_ignore {t : TradeRecord} {ts : List TradeRecord}
    (ha : t.action = .IGNORE) : newValue (t :: ts) = newValue ts := by
  unfold newValue
  rw [nonIgnored_cons_ignore ha]

/-- C9: whenever every non-IGNORE row satisfies the TradeRecord invariants
`trade_shares = shares - shares_old` and `trade_value = trade_shares * price`,
the unrounded per-action sums of `summarize` satisfy
`buy_value + sell_value + adjust_value = new_portfolio_value - old_portfolio_value`. -/
theorem portfolio_summary_value_identity : ∀ combined : List TradeRecord,
    (∀ t ∈ combined, t.action ≠ .IGNORE →
      t.trade_shares = t.shares - t.shares_old ∧
      t.trade_value = t.trade_shares * t.price) →
    (portfolio_summary combined).buy_value + (portfolio_summary combined).sell_value +
      (portfolio_summary combined).adjust_value =
    (portfolio_summary combined).new_portfolio_value -
      (portfolio_summary combined).old_portfolio_value := by
  have key : ∀ combined : List TradeRecord,
      (∀ t ∈ combined, t.action ≠ .IGNORE →
        t.trade_shares = t.shares - t.shares_old ∧
        t.trade_value = t.trade_shares * t.price) →
      actionValue .BUY combined + actionValue .SELL combined +
        actionValue .ADJUST combined = newValue combined - oldValue combined := by
    intro combined
    induction combined with
    | nil =>
        intro _
        show (0 : ℚ) + 0 + 0 = 0 - 0
        ring
    | cons t ts ih =>
        intro h
        have hih := ih (fun u hu => h u (List.mem_cons_of_mem t hu))
        rcases ha : t.action with h1 | h1 | h1 | h1
        · have ha' : t.action ≠ .IGNORE := by rw [ha]; intro hc; cases hc
          obtain ⟨hts, htv⟩ := h t (List.mem_cons_self t ts) ha'
          rw [actionValue_cons_keep_ne ha' (by rw [ha]; intro hc; cases hc),
            actionValue_cons_keep_ne ha' (by rw [ha]; intro hc; cases hc),
            actionValue_cons_keep_eq ha' ha,
            newValue_cons_keep ha', oldValue_cons_keep ha', htv, hts]
          linear_combination hih
        · have ha' : t.action ≠ .IGNORE := by rw [ha]; intro hc; cases hc
          obtain ⟨hts, htv⟩ := h t (List.mem_cons_self t ts) ha'
          rw [actionValue_cons_keep_ne ha' (by rw [ha]; intro hc; cases hc),
            actionValue_cons_keep_eq ha' ha,
            actionValue_cons_keep_ne ha' (by rw [ha]; intro hc; cases hc),
            newValue_cons_keep ha', oldValue_cons_keep ha', htv, hts]
          linear_combination hih
        · have ha' : t.action ≠ .IGNORE := by rw [ha]; intro hc; cases hc
          obtain ⟨hts, htv⟩ := h t (List.mem_cons_self t ts) ha'
          rw [actionValue_cons_keep_eq ha' ha,
            actionValue_cons_keep_ne ha' (by rw [ha]; intro hc; cases hc),
            actionValue_cons_keep_ne ha' (by rw [ha]; intro hc; cases hc),
            newValue_cons_keep ha', oldValue_cons_keep ha', htv, hts]
          linear_combination hih
        · rw [actionValue_cons_ignore ha, actionValue_cons_ignore ha,
            actionValue_cons_ignore ha, newValue_cons_ignore ha,
            oldValue_cons_ignore ha]
          exact hih
  intro combined h
  exact key combined h

/-- Witness: the value identity applied to the concrete SELL/BUY table of
the two-date rebalancing example (60 + (-60) + 0 = 60 - 60). -/
theorem portfolio_summary_value_identity_witness :
    (portfolio_summary [⟨"A", 30, 60, 0, 0, 2, -30, -60, .SELL⟩,
        ⟨"B", 0, 0, 15, 60, 4, 15, 60, .BUY⟩]).buy_value +
      (portfolio_summary [⟨"A", 30, 60, 0, 0, 2, -30, -60, .SELL⟩,
        ⟨"B", 0, 0, 15, 60, 4, 15, 60, .BUY⟩]).sell_value +
      (portfolio_summary [⟨"A", 30, 60, 0, 0, 2, -30, -60, .SELL⟩,
        ⟨"B", 0, 0, 15, 60, 4, 15, 60, .BUY⟩]).adjust_value =
    (portfolio_summary [⟨"A", 30, 60, 0, 0, 2, -30, -60, .SELL⟩,
        ⟨"B", 0, 0, 15, 60, 4, 15, 60, .BUY⟩]).new_portfolio_value -
      (portfolio_summary [⟨"A", 30, 60, 0, 0, 2, -30, -60, .SELL⟩,
        ⟨"B", 0, 0, 15, 60, 4, 15, 60, .BUY⟩]).old_portfolio_value :=
  portfolio_summary_value_identity
    [⟨"A", 30, 60, 0, 0, 2, -30, -60, .SELL⟩, ⟨"B", 0, 0, 15, 60, 4, 15, 60, .BUY⟩]
    (by with_unfolding_all decide)

end Core
